import Mathlib

/-!
Verification of the CoinMarketCap terminal (`src/cmc_terminal.py`).

Python strings are modelled as lists of characters (`PyStr`), JSON values by
the inductive `Json`, Python dicts by association lists in insertion order
with `dictSet` (assignment `d[k] = v`) and `dictGet` (`d.get(k)`).
-/

/-- Python strings, modelled as their character lists. -/
abbrev PyStr := List Char

/-- Coercion from Lean string literals to the Python-string model. -/
def pys (s : String) : PyStr := s.data

/-- JSON values, as produced by `r.json()` in the source. Numbers are modelled
by rationals (standing in for finite IEEE doubles). -/
inductive Json where
  | null
  | bool (b : Bool)
  | num (q : ℚ)
  | str (s : PyStr)
  | arr (elems : List Json)
  | obj (fields : List (PyStr × Json))

/-- Python dict lookup `d.get(k)`: the value at key `k`, if present. -/
def dictGet (d : List (PyStr × Json)) (k : PyStr) : Option Json :=
  (d.find? (fun p => decide (p.1 = k))).map (·.2)

/-- Python dict assignment `d[k] = v`: overwrite in place when the key exists,
otherwise append at the end (insertion order). -/
def dictSet (d : List (PyStr × Json)) (k : PyStr) (v : Json) : List (PyStr × Json) :=
  if d.any (fun p => decide (p.1 = k)) then
    d.map (fun p => if p.1 = k then (k, v) else p)
  else
    d ++ [(k, v)]

/-- Python `d.get(k, dflt)` with a default value. -/
def getD (d : List (PyStr × Json)) (k : PyStr) (dflt : Json) : Json :=
  match dictGet d k with
  | some v => v
  | none => dflt

/-- View a JSON value as an object; the source only applies `.items()` / `.get`
to values that are dicts (a non-dict would raise in Python, out of scope). -/
def asObj : Json → List (PyStr × Json)
  | .obj fields => fields
  | _ => []

/-- View a JSON value as an array; the source only iterates list-valued
`data` fields (a non-list would raise in Python, out of scope). -/
def asArr : Json → List Json
  | .arr elems => elems
  | _ => []

/-- The keys of an association-list dict, in order. -/
def dictKeys (d : List (PyStr × Json)) : List PyStr := d.map (·.1)

/-- The per-currency quote object of an asset record:
`c.get("quote", {}).get(convert, {})` in the source. -/
def quoteObj (convert : PyStr) (c : List (PyStr × Json)) : List (PyStr × Json) :=
  asObj (getD (asObj (getD c (pys "quote") (.obj []))) convert (.obj []))

/-- Flattening of one asset record (the body of the `for c in data` loop in
`get_flat_df`, lines 61-71 of the source): copy each top-level item except
`quote` into `row`, then copy each item of `c.get("quote", {}).get(convert, {})`
under the key `f"{convert}_{k}"`. -/
def flatten_row (convert : PyStr) (c : List (PyStr × Json)) : List (PyStr × Json) :=
  let base := c.foldl
    (fun row kv => if kv.1 = pys "quote" then row else dictSet row kv.1 kv.2) []
  (quoteObj convert c).foldl
    (fun row kv => dictSet row (convert ++ pys "_" ++ kv.1) kv.2) base

/-- Outcome of the single outbound HTTP GET, as seen by `fetch_cmc`. -/
inductive HttpOutcome where
  | timeout
  | response (status : Nat) (body : Json)

/-- One outbound request issued by `requests.get` (its URL and parameters). -/
structure HttpReq where
  url : PyStr
  limit : Nat
  convert : PyStr

/-- Python exceptions raised by the fetch pipeline:
`RuntimeError("CMC_API_KEY not set...")`, `requests.exceptions.Timeout`,
and the `HTTPError` raised by `raise_for_status` on a 4xx/5xx status. -/
inductive PyErr where
  | configMissing
  | requestTimeout
  | httpStatusFail (code : Nat)

/-- The listings endpoint URL constant of the source. -/
def API_URL : PyStr :=
  pys "https://pro-api.coinmarketcap.com/v1/cryptocurrency/listings/latest"

/-- Embedding of `fetch_cmc` (source lines 46-53). Besides the result it
returns the list of HTTP requests actually issued, so that the absence of a
network call is expressible. `raise_for_status` raises exactly when the
status code is 4xx/5xx. -/
def fetch_cmc (apiKey : Option PyStr) (net : HttpOutcome) (limit : Nat)
    (convert : PyStr) : Except PyErr Json × List HttpReq :=
  match apiKey with
  | none => (.error .configMissing, [])
  | some _ =>
    let req : HttpReq := ⟨API_URL, limit, convert⟩
    match net with
    | .timeout => (.error .requestTimeout, [req])
    | .response status body =>
      if 400 ≤ status then (.error (.httpStatusFail status), [req])
      else (.ok body, [req])

/-- Embedding of the body of `get_flat_df` (source lines 56-73): fetch, take
`payload.get("data", [])`, flatten every record, and pair the frame with
`payload.get("status", {})`. Errors raised by `fetch_cmc` propagate. -/
def get_flat_df (apiKey : Option PyStr) (net : HttpOutcome) (limit : Nat)
    (convert : PyStr) :
    Except PyErr (List (List (PyStr × Json)) × Json) × List HttpReq :=
  match fetch_cmc apiKey net limit convert with
  | (.error e, reqs) => (.error e, reqs)
  | (.ok payload, reqs) =>
    let data := asArr (getD (asObj payload) (pys "data") (.arr []))
    let flattened := data.map (fun c => flatten_row convert (asObj c))
    (.ok (flattened, getD (asObj payload) (pys "status") (.obj [])), reqs)

/-!
View pipeline: search filter, sort stage, paging, per-value formatting.
-/

/-- Regex tokens of the fragment of Python `re` patterns modelled here:
literal characters and the metacharacter `.` (any character). The source's
`Series.str.contains(search_input, case=False)` treats the search text as a
regular expression; this embedding is faithful for patterns built from
non-metacharacter characters and `.`. -/
inductive RTok where
  | dot
  | lit (c : Char)

/-- Compile a search text to regex tokens; `case=False` is modelled by
lowering pattern literals (and subject characters at match time). -/
def compileRe (p : PyStr) : List RTok :=
  p.map (fun c => if c = '.' then RTok.dot else RTok.lit c.toLower)

/-- Does one token match one subject character (case-insensitively)? -/
def tokMatches (t : RTok) (c : Char) : Bool :=
  match t with
  | .dot => true
  | .lit a => a = c.toLower

/-- Match a token list against the beginning of a subject. -/
def matchHere : List RTok → PyStr → Bool
  | [], _ => true
  | _ :: _, [] => false
  | t :: ts, c :: cs => tokMatches t c && matchHere ts cs

/-- Python `re.search`: match the token list at some position of the subject. -/
def reSearch (ts : List RTok) : PyStr → Bool
  | [] => matchHere ts []
  | c :: cs => matchHere ts (c :: cs) || reSearch ts cs

/-- Embedding of `Series.str.contains(pat, case=False)` on one cell value. -/
def str_contains_ci (pat subj : PyStr) : Bool :=
  reSearch (compileRe pat) subj

/-- Case-insensitive prefix test on character lists (no regex involved). -/
def isPrefixCI : PyStr → PyStr → Bool
  | [], _ => true
  | _ :: _, [] => false
  | a :: ps, b :: ss => (a.toLower = b.toLower) && isPrefixCI ps ss

/-- Case-insensitive substring containment, following the words of the spec
("name or symbol case-insensitively contains the search text"); used to
compare the source's regex-based filter against the spec. -/
def containsCI (pat : PyStr) : PyStr → Bool
  | [] => isPrefixCI pat []
  | c :: cs => isPrefixCI pat (c :: cs) || containsCI pat cs

/-- Python regex metacharacters (special outside a character class). -/
def isRegexMeta (c : Char) : Bool :=
  c ∈ (['.', '^', '$', '*', '+', '?', '\x7b', '\x7d',
        '[', ']', '(', ')', '|', '\\'] : List Char)

/-- Read a cell as text: pandas' `.str` accessor yields a string only for
string-valued cells; any other value becomes NaN, which `na=False` maps to
False in the mask. -/
def rowText (r : List (PyStr × Json)) (k : PyStr) : Option PyStr :=
  match dictGet r k with
  | some (.str s) => some s
  | _ => none

/-- One cell of the boolean mask: `col.str.contains(search, case=False,
na=False)` at one row. -/
def seriesContains (search : PyStr) (cell : Option PyStr) : Bool :=
  match cell with
  | none => false
  | some s => str_contains_ci search s

/-- Spec-side counterpart of `seriesContains`, with substring containment in
place of regex search. -/
def seriesContainsSpec (search : PyStr) (cell : Option PyStr) : Bool :=
  match cell with
  | none => false
  | some s => containsCI search s

/-- Embedding of the search filter (source lines 175-178): an empty search
text leaves the frame unchanged (Python truthiness of `""`); otherwise keep
the rows whose `name` or `symbol` matches. -/
def filtered_df (search : PyStr) (rows : List (List (PyStr × Json))) :
    List (List (PyStr × Json)) :=
  if search = [] then rows
  else rows.filter (fun r =>
    seriesContains search (rowText r (pys "name")) ||
    seriesContains search (rowText r (pys "symbol")))

/-- A data frame: column labels plus rows (each an association-list record). -/
structure Frame where
  cols : List PyStr
  rows : List (List (PyStr × Json))

/-- Comparison of two sort keys. The source sorts on numeric columns
(`cmc_rank`, prices, percent changes, market cap); non-numeric or missing
keys have no faithful pandas order here and default to `true`. No theorem
below depends on this ordering. -/
def keyLe (col : PyStr) (r1 r2 : List (PyStr × Json)) : Bool :=
  match dictGet r1 col, dictGet r2 col with
  | some (.num x), some (.num y) => decide (x ≤ y)
  | _, _ => true

/-- Embedding of `DataFrame.sort_values(by=col, ascending=asc)`. pandas'
default `kind` is `'quicksort'`, an unstable introsort whose tie order is
unspecified; the embedding produces rows ordered by the key (here via
`mergeSort`) and no theorem below relies on the order of ties. -/
def sort_values (col : PyStr) (asc : Bool) (rows : List (List (PyStr × Json))) :
    List (List (PyStr × Json)) :=
  rows.mergeSort (fun a b => if asc then keyLe col a b else keyLe col b a)

/-- The keys of the `mapping` dict of the source (lines 144-155). -/
def mappingKeys (convert : PyStr) : List PyStr :=
  [pys "cmc_rank", pys "name", pys "symbol",
   convert ++ pys "_price",
   convert ++ pys "_percent_change_1h",
   convert ++ pys "_percent_change_24h",
   convert ++ pys "_percent_change_7d",
   convert ++ pys "_percent_change_30d",
   convert ++ pys "_percent_change_60d",
   convert ++ pys "_percent_change_90d",
   convert ++ pys "_market_cap",
   convert ++ pys "_volume_24h"]

/-- Embedding of the sort stage (source lines 180-187): sort only when the
requested field is among the frame's columns, with a second chance via the
`mapping` keys; otherwise leave the frame untouched. -/
def sortStage (sortBy convert : PyStr) (sortDesc : Bool) (f : Frame) : Frame :=
  if sortBy ∈ f.cols then
    { f with rows := sort_values sortBy (!sortDesc) f.rows }
  else if sortBy ∈ mappingKeys convert then
    if sortBy ∈ f.cols then
      { f with rows := sort_values sortBy (!sortDesc) f.rows }
    else f
  else f

/-- Total page count (source line 194): `max(1, math.ceil(total_rows /
page_size))`, with the ceiling written as `(t + ps - 1) / ps` over naturals. -/
def total_pages (total pageSize : Nat) : Nat :=
  max 1 ((total + pageSize - 1) / pageSize)

/-- Embedding of the page slice (source lines 211-212):
`filtered_df.iloc[start : start + page_size]` with `start = page_idx *
page_size`; Python slicing past the end yields the empty frame. -/
def page_df (pageIdx pageSize : Nat) (rows : List α) : List α :=
  (rows.drop (pageIdx * pageSize)).take pageSize

/-- The previous-page button (source line 199): `max(0, page_idx - 1)`,
which over naturals is truncated subtraction. -/
def prev_page (idx : Nat) : Nat := idx - 1

/-- The next-page button (source line 202): `min(total_pages - 1, page_idx + 1)`. -/
def next_page (totalPages idx : Nat) : Nat := min (totalPages - 1) (idx + 1)

/-- The StreamlitAPIException a widget raises when its default value lies
outside its declared bounds: at source line 204, `st.number_input` with
`value = page_idx + 1` and `max_value = total_pages` raises whenever the
stored index makes the default exceed the maximum. -/
inductive WidgetErr where
  | valueAboveMax

/-- The page index after the button row (source lines 197-202): the
previous-button, when clicked, is applied first, then the next-button. -/
def buttons_idx (prevClicked nextClicked : Bool) (totalPages idx0 : Nat) : Nat :=
  if nextClicked then
    next_page totalPages (if prevClicked then prev_page idx0 else idx0)
  else if prevClicked then prev_page idx0 else idx0

/-- The page index after the jump `number_input` (source lines 204-206):
`pn` is the user's edit this run when there is one — the widget only
yields values within its `[1, total_pages]` bounds — and the in-bounds
default `idx2 + 1` otherwise; `pn - 1` replaces the stored index when it
differs. -/
def jump_idx (jumpEdit : Option Nat) (idx2 : Nat) : Nat :=
  if (jumpEdit.getD (idx2 + 1)) - 1 ≠ idx2 then (jumpEdit.getD (idx2 + 1)) - 1
  else idx2

/-- One run of the paging section (source lines 190-212): take the stored
index (default 0), apply the clicked buttons, then render the jump
`number_input` — which raises a StreamlitAPIException when its default
`page_idx + 1` exceeds `max_value = total_pages`, aborting the run before
any slice — and finally take the `iloc` page slice at the surviving index. -/
def paging_run (prevClicked nextClicked : Bool) (jumpEdit : Option Nat)
    (storedIdx : Option Nat) (pageSize : Nat)
    (rows : List (List (PyStr × Json))) :
    Except WidgetErr (Nat × List (List (PyStr × Json))) :=
  if total_pages rows.length pageSize
      < buttons_idx prevClicked nextClicked (total_pages rows.length pageSize)
          (storedIdx.getD 0) + 1 then
    .error .valueAboveMax
  else
    .ok (jump_idx jumpEdit (buttons_idx prevClicked nextClicked
          (total_pages rows.length pageSize) (storedIdx.getD 0)),
      page_df (jump_idx jumpEdit (buttons_idx prevClicked nextClicked
          (total_pages rows.length pageSize) (storedIdx.getD 0))) pageSize rows)

/-!
Cache: `get_flat_df` is wrapped in `@st.cache_data(ttl=120)` (source line 55).
Streamlit memoizes the wrapped function by its arguments; an entry younger
than the TTL is served as-is, otherwise the function body runs again and the
entry is replaced. The embedding keys the cache by `(limit, convert)` and
returns, besides the value and the new cache state, whether the wrapped body
(and hence the upstream fetch) ran.
-/

/-- The TTL of the `st.cache_data` decorator in seconds (source line 55). -/
def CACHE_TTL : Nat := 120

/-- A snapshot as returned by `get_flat_df`: flattened rows plus the status. -/
abbrev Snapshot := List (List (PyStr × Json)) × Json

/-- Cache keys: the `(limit, convert)` argument pair of `get_flat_df`. -/
abbrev CacheKey := Nat × PyStr

/-- One memoized entry: key, value, and the time it was stored. -/
structure CacheEntry where
  key : CacheKey
  value : Snapshot
  storedAt : Nat

/-- Look up a fresh (age strictly below the TTL) entry for a key. -/
def cacheLookup (ttl now : Nat) (st : List CacheEntry) (key : CacheKey) :
    Option Snapshot :=
  (st.find? (fun e => decide (e.key = key) && decide (now < e.storedAt + ttl))).map
    (·.value)

/-- One call to the cached `get_flat_df`: serve a fresh entry when present
(no fetch), else run the body — whose result is the `fetched` argument —
store it, and report that a fetch happened. -/
def cached_get_flat_df (fetched : Snapshot) (ttl now : Nat)
    (st : List CacheEntry) (key : CacheKey) :
    Snapshot × List CacheEntry × Bool :=
  match cacheLookup ttl now st key with
  | some v => (v, st, false)
  | none =>
    (fetched, ⟨key, fetched, now⟩ :: st.filter (fun e => !decide (e.key = key)),
     true)

/-!
Formatting: `human_num` (source lines 31-44).
-/

/-- Inputs of `human_num`, split by whether Python's `float(x)` succeeds:
`num q` carries the converted value (rationals stand in for finite IEEE
doubles; NaN and infinities are outside this model), `nonNum` is any value
`float` rejects (None, a non-numeric string, a list, ...). -/
inductive PyVal where
  | num (q : ℚ)
  | nonNum

/-- Decimal digits of a natural number, least significant first; the fuel
argument (always sufficient at `n + 1`) keeps the recursion structural. -/
def natDigitsRevAux : Nat → Nat → List Char
  | 0, _ => []
  | fuel + 1, n =>
    if n < 10 then [Nat.digitChar n]
    else Nat.digitChar (n % 10) :: natDigitsRevAux fuel (n / 10)

/-- Decimal digits of a natural number, least significant first. -/
def natDigitsRev (n : Nat) : List Char := natDigitsRevAux (n + 1) n

/-- Thousands grouping of a reversed digit list, as in Python's `{:,}`
format; the fuel argument (always sufficient at the list length) keeps the
recursion structural. -/
def groupRevAux : Nat → List Char → List Char
  | 0, ds => ds
  | fuel + 1, ds =>
    if ds.length ≤ 3 then ds
    else ds.take 3 ++ ',' :: groupRevAux fuel (ds.drop 3)

/-- Thousands grouping of a reversed digit list. -/
def groupRev (ds : List Char) : List Char := groupRevAux ds.length ds

/-- Round a rational to the nearest integer, ties to even — the rounding of
CPython's fixed-point float formatting. -/
def rndHalfEven (q : ℚ) : ℤ :=
  let f := ⌊q⌋
  let frac := q - (f : ℚ)
  if frac < 1 / 2 then f
  else if 1 / 2 < frac then f + 1
  else if f % 2 = 0 then f else f + 1

/-- Two-digit rendering of a remainder below 100. -/
def twoDigits (m : Nat) : PyStr :=
  [Nat.digitChar (m / 10), Nat.digitChar (m % 10)]

/-- Python `f"{x:,.0f}"`: round to an integer and group with commas. CPython
renders a negative value rounding to zero as `-0`; the model drops that sign
(no theorem below depends on it). -/
def fmt_0f (x : ℚ) : PyStr :=
  if rndHalfEven x < 0 then
    '-' :: (groupRev (natDigitsRev (rndHalfEven x).natAbs)).reverse
  else (groupRev (natDigitsRev (rndHalfEven x).natAbs)).reverse

/-- Python `f"{y:,.2f}"`: two fixed decimals with a grouped integer part.
In `human_num` this is only applied to values at least 1 (a threshold
divided by itself or a larger power of ten), so the sign-of-negative-zero
corner of CPython does not arise. -/
def fmt_2f (y : ℚ) : PyStr :=
  let n := rndHalfEven (y * 100)
  let sign : PyStr := if n < 0 then pys "-" else []
  let a := n.natAbs
  sign ++ (groupRev (natDigitsRev (a / 100))).reverse ++ '.' :: twoDigits (a % 100)

/-- Embedding of `human_num` (source lines 31-44): `"-"` when `float(x)`
fails, otherwise a magnitude-suffixed or plainly formatted number. -/
def human_num : PyVal → PyStr
  | .nonNum => pys "-"
  | .num x =>
    if (10 : ℚ) ^ 12 ≤ x then fmt_2f (x / 10 ^ 12) ++ ['T']
    else if (10 : ℚ) ^ 9 ≤ x then fmt_2f (x / 10 ^ 9) ++ ['B']
    else if (10 : ℚ) ^ 6 ≤ x then fmt_2f (x / 10 ^ 6) ++ ['M']
    else if (10 : ℚ) ^ 3 ≤ x then fmt_2f (x / 10 ^ 3) ++ ['K']
    else fmt_0f x

/-!
Concrete records used by the theorems below.
-/

/-- The spec's flattening example record `{symbol: "BTC", quote: {USD: {price: 50000}}}`. -/
def exFlattenBTC : List (PyStr × Json) :=
  [(pys "symbol", .str (pys "BTC")),
   (pys "quote", .obj [(pys "USD", .obj [(pys "price", .num 50000)])])]

/-- An asset record whose top-level field name collides with a prefixed
quote key. -/
def exFlattenCollide : List (PyStr × Json) :=
  [(pys "USD_price", .str (pys "top-level")),
   (pys "quote", .obj [(pys "USD", .obj [(pys "price", .num 2)])])]

/-- A payload whose top-level `data` array is missing. -/
def exPayloadNoData : Json :=
  .obj [(pys "status", .obj [(pys "error_code", .num 0)])]

/-- A row whose name and symbol are both `"AB"` (no literal dot anywhere). -/
def exRowAB : List (PyStr × Json) :=
  [(pys "name", .str (pys "AB")), (pys "symbol", .str (pys "AB"))]

/-- The Bitcoin row of the spec's search example. -/
def exRowBitcoin : List (PyStr × Json) :=
  [(pys "name", .str (pys "Bitcoin")), (pys "symbol", .str (pys "BTC"))]

/-- The Ethereum row of the spec's search example. -/
def exRowEthereum : List (PyStr × Json) :=
  [(pys "name", .str (pys "Ethereum")), (pys "symbol", .str (pys "ETH"))]

/-- Single-field rows carrying the symbols of the paging example. -/
def exRowBTC : List (PyStr × Json) := [(pys "symbol", .str (pys "BTC"))]

/-- Second row of the paging example. -/
def exRowETH : List (PyStr × Json) := [(pys "symbol", .str (pys "ETH"))]

/-- Third row of the paging example. -/
def exRowXRP : List (PyStr × Json) := [(pys "symbol", .str (pys "XRP"))]

/-- The three-row frame of the paging example, in rank order. -/
def exRows3 : List (List (PyStr × Json)) := [exRowBTC, exRowETH, exRowXRP]

/-- The magnitude suffix characters of `human_num`. -/
def suffixChars : List Char := ['K', 'M', 'B', 'T']

/-!
Theorems.
-/

/-- C2: with no API credential configured (`API_KEY is None`), `fetch_cmc`
raises its configuration error for every limit and currency, and no HTTP
request is issued. -/
theorem fetch_cmc_no_key_is_config_error (net : HttpOutcome) (limit : Nat)
    (convert : PyStr) :
    fetch_cmc none net limit convert = (.error .configMissing, []) := rfl

/-- C3, counterexample: a 200 response whose payload has no top-level
`data` array makes `get_flat_df` return an empty frame successfully —
`payload.get("data", [])` defaults to the empty list — instead of failing
with an upstream error as the claim states. -/
theorem get_flat_df_missing_data_cex :
    (get_flat_df (some (pys "k")) (.response 200 exPayloadNoData) 100
      (pys "USD")).1 = .ok ([], .obj [(pys "error_code", .num 0)]) ∧
    ∀ e, (get_flat_df (some (pys "k")) (.response 200 exPayloadNoData) 100
      (pys "USD")).1 ≠ .error e :=
  ⟨rfl, fun _ h => Except.noConfusion h⟩

/-- C3, amended: a timeout or a non-success HTTP status does fail the
pipeline with the corresponding upstream error, but a payload missing the
top-level `data` array is not an error — it yields an empty flattened
frame. -/
theorem get_flat_df_error_amended (apiKey : PyStr) (limit : Nat) (convert : PyStr) :
    ((get_flat_df (some apiKey) .timeout limit convert).1
        = .error .requestTimeout) ∧
    (∀ status body, 400 ≤ status →
      (get_flat_df (some apiKey) (.response status body) limit convert).1
        = .error (.httpStatusFail status)) ∧
    (∀ status body, status < 400 → dictGet (asObj body) (pys "data") = none →
      (get_flat_df (some apiKey) (.response status body) limit convert).1
        = .ok ([], getD (asObj body) (pys "status") (.obj []))) := by
  refine ⟨rfl, ?_, ?_⟩
  · intro status body h
    simp [get_flat_df, fetch_cmc, h]
  · intro status body h hd
    simp [get_flat_df, fetch_cmc, Nat.not_le.mpr h, getD, hd, asArr]

/-- Witness for `get_flat_df_error_amended` at a concrete 404 response. -/
theorem get_flat_df_error_amended_witness :
    (get_flat_df (some (pys "key")) (.response 404 (.obj [])) 100 (pys "USD")).1
      = .error (.httpStatusFail 404) :=
  (get_flat_df_error_amended (pys "key") 100 (pys "USD")).2.1 404 (.obj [])
    (by decide)

/-- C6: sorting by a field absent from the frame's columns leaves the frame
unchanged (and in particular raises no error: the stage is total). -/
theorem sortStage_absent_field_noop (sortBy convert : PyStr) (sortDesc : Bool)
    (f : Frame) (h : sortBy ∉ f.cols) : sortStage sortBy convert sortDesc f = f := by
  unfold sortStage
  simp [h]

/-- Witness for `sortStage_absent_field_noop`: sorting a one-column frame by
the absent `USD_price` field. -/
theorem sortStage_absent_field_noop_witness :
    (pys "USD_price") ∉ (Frame.mk [pys "name"] [exRowBitcoin]).cols ∧
    sortStage (pys "USD_price") (pys "EUR") true
      (Frame.mk [pys "name"] [exRowBitcoin]) = Frame.mk [pys "name"] [exRowBitcoin] :=
  ⟨by decide, sortStage_absent_field_noop _ _ _ _ (by decide)⟩

/-- Auxiliary for C8: zero rows still give exactly one page. -/
theorem total_pages_zero (pageSize : Nat) : total_pages 0 pageSize = 1 := by
  unfold total_pages
  rcases Nat.eq_zero_or_pos pageSize with h | h
  · subst h; rfl
  · rw [Nat.zero_add, Nat.div_eq_of_lt (by omega)]
    simp

/-- Auxiliary for C8: the index surviving the jump widget stays within the
page range, given an in-range incoming index and a jump value within the
widget's bounds. -/
theorem jump_idx_le (jumpEdit : Option Nat) (idx2 tp : Nat)
    (hj : ∀ pn, jumpEdit = some pn → 1 ≤ pn ∧ pn ≤ tp)
    (h2 : idx2 + 1 ≤ tp) : jump_idx jumpEdit idx2 + 1 ≤ tp := by
  unfold jump_idx
  cases jumpEdit with
  | none => simpa using h2
  | some pn =>
    obtain ⟨h1, hle⟩ := hj pn rfl
    simp only [Option.getD_some]
    by_cases he : pn - 1 = idx2
    · rw [if_neg (by simpa using he)]
      omega
    · rw [if_pos he]
      omega

/-- C8, counterexample: with 3 filtered rows, page size 2 and a stale page
index of 4 (left over from a larger row set), the jump widget's default
value `4 + 1 = 5` exceeds `max_value = total_pages = 2`, so the run raises
a StreamlitAPIException before any slice is taken — the stale index is
neither clamped (to `min 4 (total_pages - 1) = 1`) nor sliced, so no page
is produced at all, against the claim. -/
theorem page_controls_stale_index_cex :
    paging_run false false none (some 4) 2 exRows3 = .error .valueAboveMax ∧
    min 4 (total_pages exRows3.length 2 - 1) = 1 ∧
    ∀ p : Nat × List (List (PyStr × Json)),
      paging_run false false none (some 4) 2 exRows3 ≠ .ok p :=
  ⟨rfl, rfl, fun _ h => Except.noConfusion h⟩

/-- C8, amended: the page index is never clamped before the slice; instead
the jump widget's bounds check aborts, with a StreamlitAPIException, any
run whose stored index makes the default `page_idx + 1` exceed
`total_pages` — so a stale index from a larger row set raises rather than
being clamped — while every run that does reach the slice does so with an
index within `[0, total_pages - 1]` (the buttons clamp at 0 and
`total_pages - 1`, the jump value lies within the widget's bounds); a
total of 0 rows gives `total_pages = 1` and, from the default index, a
single empty page (page 1 of 1) with no division error. -/
theorem paging_bounds_amended :
    (∀ (prevClicked nextClicked : Bool) (jumpEdit storedIdx : Option Nat)
       (pageSize : Nat) (rows : List (List (PyStr × Json))),
      (∀ pn, jumpEdit = some pn →
        1 ≤ pn ∧ pn ≤ total_pages rows.length pageSize) →
      ∀ p, paging_run prevClicked nextClicked jumpEdit storedIdx pageSize rows
          = .ok p →
        p.1 + 1 ≤ total_pages rows.length pageSize ∧
        p.2 = page_df p.1 pageSize rows) ∧
    (∀ (i pageSize : Nat) (rows : List (List (PyStr × Json))),
      total_pages rows.length pageSize < i + 1 →
      paging_run false false none (some i) pageSize rows
        = .error .valueAboveMax) ∧
    (∀ pageSize, total_pages 0 pageSize = 1) ∧
    (∀ pageSize, paging_run false false none none pageSize [] = .ok (0, [])) := by
  refine ⟨?_, ?_, total_pages_zero, ?_⟩
  · intro prevC nextC jumpEdit storedIdx ps rows hjump p hok
    unfold paging_run at hok
    split at hok
    · exact Except.noConfusion hok
    · rename_i hbound
      injection hok with hok
      subst hok
      exact ⟨jump_idx_le jumpEdit _ _ hjump (by omega), rfl⟩
  · intro i ps rows h
    unfold paging_run
    rw [if_pos]
    show total_pages rows.length ps
      < buttons_idx false false (total_pages rows.length ps)
          ((some i).getD 0) + 1
    simpa [buttons_idx] using h
  · intro ps
    unfold paging_run
    rw [if_neg]
    · have h0 : jump_idx none (buttons_idx false false
          (total_pages (List.length ([] : List (List (PyStr × Json)))) ps)
          ((none : Option Nat).getD 0)) = 0 := rfl
      rw [h0]
      simp [page_df]
    · simp only [List.length_nil, total_pages_zero, buttons_idx,
        Option.getD_none, Bool.false_eq_true, if_false]
      omega

/-- Witness for `paging_bounds_amended`: a run that reaches the slice — the
next-button pulls the stale index 5 back to 1, within range — produces the
in-range last page. -/
theorem paging_bounds_amended_witness :
    paging_run false true none (some 5) 2 exRows3 = .ok (1, [exRowXRP]) ∧
    ((1, [exRowXRP]) : Nat × List (List (PyStr × Json))).1 + 1
        ≤ total_pages exRows3.length 2 ∧
    ((1, [exRowXRP]) : Nat × List (List (PyStr × Json))).2
        = page_df ((1, [exRowXRP]) : Nat × List (List (PyStr × Json))).1 2
            exRows3 :=
  ⟨rfl,
   paging_bounds_amended.1 false true none (some 5) 2 exRows3
     (fun _ h => Option.noConfusion h) (1, [exRowXRP]) rfl⟩

/-- Auxiliary for C7: if `n` pages of size `sz` suffice to hold `rows`,
the concatenation of pages `0..n-1` is exactly `rows`. -/
theorem page_df_flatten_aux :
    ∀ (n sz : Nat) (rows : List (List (PyStr × Json))), rows.length ≤ n * sz →
      ((List.range n).map (fun i => page_df i sz rows)).flatten = rows := by
  intro n
  induction n with
  | zero =>
    intro sz rows h
    simp only [Nat.zero_mul, Nat.le_zero, List.length_eq_zero] at h
    simp [h]
  | succ n ih =>
    intro sz rows h
    have hstep : ∀ i, page_df (i + 1) sz rows = page_df i sz (rows.drop sz) := by
      intro i
      unfold page_df
      rw [List.drop_drop]
      have : sz + i * sz = (i + 1) * sz := by ring
      rw [this]
    rw [List.range_succ_eq_map]
    simp only [List.map_cons, List.map_map, List.flatten_cons, Function.comp_def]
    have hmaps : (List.range n).map (fun i => page_df (Nat.succ i) sz rows)
        = (List.range n).map (fun i => page_df i sz (rows.drop sz)) :=
      List.map_congr_left (fun i _ => hstep i)
    rw [hmaps, ih sz (rows.drop sz)
      (by rw [List.length_drop]; rw [Nat.succ_mul] at h; omega)]
    unfold page_df
    rw [Nat.zero_mul, List.drop_zero, List.take_append_drop]

/-- Auxiliary for C7: the total row count never exceeds
`total_pages * pageSize` when the page size is positive. -/
theorem le_total_pages_mul (t sz : Nat) (h : 1 ≤ sz) :
    t ≤ total_pages t sz * sz := by
  unfold total_pages
  rcases Nat.eq_zero_or_pos t with ht | ht
  · subst ht; exact Nat.zero_le _
  · have hrw : t + sz - 1 = (t - 1) + sz := by omega
    rw [hrw, Nat.add_div_right _ h]
    have hq : max 1 ((t - 1) / sz + 1) = (t - 1) / sz + 1 :=
      Nat.max_eq_right (Nat.succ_le_succ (Nat.zero_le _))
    rw [hq]
    have h2 : t - 1 < ((t - 1) / sz + 1) * sz := by
      rw [← Nat.div_lt_iff_lt_mul h]
      exact Nat.lt_succ_self _
    have h3 := Nat.succ_le_of_lt h2
    rwa [Nat.succ_eq_add_one, Nat.sub_add_cancel ht] at h3

/-- C7: for a positive page size, the page slices at indices
`0..total_pages-1` concatenate to the whole filtered row set — each row
appears exactly once, with no overlap and no gap — so the page lengths sum
to the total row count; and on three rows with page size 2, page 0 holds
the BTC and ETH rows and page 1 the XRP row. -/
theorem pages_cover_rows_exactly :
    (∀ (rows : List (List (PyStr × Json))) (pageSize : Nat), 1 ≤ pageSize →
      ((List.range (total_pages rows.length pageSize)).map
          (fun i => page_df i pageSize rows)).flatten = rows ∧
      ((List.range (total_pages rows.length pageSize)).map
          (fun i => (page_df i pageSize rows).length)).sum = rows.length) ∧
    page_df 0 2 exRows3 = [exRowBTC, exRowETH] ∧
    page_df 1 2 exRows3 = [exRowXRP] := by
  refine ⟨?_, rfl, rfl⟩
  intro rows ps hps
  have hflat := page_df_flatten_aux (total_pages rows.length ps) ps rows
    (le_total_pages_mul rows.length ps hps)
  refine ⟨hflat, ?_⟩
  have hlen := congrArg List.length hflat
  rw [List.length_flatten, List.map_map] at hlen
  exact hlen

/-- Witness for `pages_cover_rows_exactly` on the three example rows with
page size 2. -/
theorem pages_cover_rows_exactly_witness :
    (1 ≤ 2) ∧
    ((List.range (total_pages exRows3.length 2)).map
        (fun i => page_df i 2 exRows3)).flatten = exRows3 :=
  ⟨by decide, (pages_cover_rows_exactly.1 exRows3 2 (by decide)).1⟩

/-- C9: when the first call to the cached `get_flat_df` misses (and so
performs the one fetch), any second call for the same `(limit, convert)`
key whose time is within the TTL window of the first returns the identical
snapshot from the cache, leaves the cache unchanged, and performs no second
fetch — whatever a fresh fetch would have returned. -/
theorem cache_second_call_hits (fetched0 fetched1 : Snapshot)
    (ttl now0 now1 : Nat) (st : List CacheEntry) (key : CacheKey)
    (hmiss : cacheLookup ttl now0 st key = none)
    (hwin : now1 < now0 + ttl) :
    (cached_get_flat_df fetched0 ttl now0 st key).1 = fetched0 ∧
    (cached_get_flat_df fetched0 ttl now0 st key).2.2 = true ∧
    cached_get_flat_df fetched1 ttl now1
        (cached_get_flat_df fetched0 ttl now0 st key).2.1 key
      = (fetched0, (cached_get_flat_df fetched0 ttl now0 st key).2.1, false) := by
  have h1 : cached_get_flat_df fetched0 ttl now0 st key
      = (fetched0,
         ⟨key, fetched0, now0⟩ :: st.filter (fun e => !decide (e.key = key)),
         true) := by
    unfold cached_get_flat_df
    rw [hmiss]
  refine ⟨by rw [h1], by rw [h1], ?_⟩
  rw [h1]
  unfold cached_get_flat_df cacheLookup
  rw [List.find?_cons]
  simp [hwin]

/-- Witness for `cache_second_call_hits`: an empty cache, the key
`(100, "USD")`, a first call at time 0 and a second at time 119 with the
source's TTL of 120 seconds. -/
theorem cache_second_call_hits_witness :
    cacheLookup CACHE_TTL 0 [] (100, pys "USD") = none ∧ 119 < 0 + CACHE_TTL ∧
    cached_get_flat_df ([exRowBTC], .obj []) CACHE_TTL 119
        (cached_get_flat_df ([], .obj []) CACHE_TTL 0 [] (100, pys "USD")).2.1
        (100, pys "USD")
      = (([], .obj []),
         (cached_get_flat_df ([], .obj []) CACHE_TTL 0 [] (100, pys "USD")).2.1,
         false) :=
  ⟨rfl, by decide,
   (cache_second_call_hits ([], .obj []) ([exRowBTC], .obj []) CACHE_TTL 0 119
     [] (100, pys "USD") rfl (by decide)).2.2⟩

/-- Auxiliary for C4: on a dot-free pattern the compiled regex matches a
prefix exactly when the case-insensitive literal prefix test succeeds. -/
theorem matchHere_lit : ∀ (s t : PyStr), (∀ c ∈ s, c ≠ '.') →
    matchHere (compileRe s) t = isPrefixCI s t
  | [], _, _ => rfl
  | c :: cs, [], _ => by
    simp [compileRe, matchHere, isPrefixCI]
  | c :: cs, b :: bs, h => by
    have hc : c ≠ '.' := h c (List.mem_cons_self c cs)
    have ih := matchHere_lit cs bs (fun x hx => h x (List.mem_cons_of_mem _ hx))
    simp only [compileRe, List.map_cons, matchHere, isPrefixCI, tokMatches,
      if_neg hc]
    rw [show compileRe cs = cs.map (fun c => if c = '.' then RTok.dot
        else RTok.lit c.toLower) from rfl] at ih
    rw [ih]

/-- Auxiliary for C4: on a dot-free pattern the regex search of the source
coincides with case-insensitive substring containment. -/
theorem str_contains_ci_lit : ∀ (s t : PyStr), (∀ c ∈ s, c ≠ '.') →
    str_contains_ci s t = containsCI s t
  | s, [], h => by
    simp only [str_contains_ci, reSearch, containsCI]
    exact matchHere_lit s [] h
  | s, b :: bs, h => by
    have ih := str_contains_ci_lit s bs h
    simp only [str_contains_ci, reSearch, containsCI] at ih ⊢
    rw [matchHere_lit s (b :: bs) h, ih]

/-- C4, counterexample: filtering with the search text `"."` keeps a row
whose name and symbol are both `"AB"`, although neither contains a dot —
`str.contains` interprets the search text as a regular expression, so the
kept rows are not exactly those containing the text. -/
theorem filter_regex_cex :
    filtered_df (pys ".") [exRowAB] = [exRowAB] ∧
    rowText exRowAB (pys "name") = some (pys "AB") ∧
    rowText exRowAB (pys "symbol") = some (pys "AB") ∧
    containsCI (pys ".") (pys "AB") = false :=
  ⟨rfl, rfl, rfl, rfl⟩

/-- C4, amended: the empty search text is the identity; every filter result
is a sublist (hence subset) of the input rows; and for a nonempty search
text free of regex metacharacters the kept rows are exactly those whose
name or symbol case-insensitively contains the text (missing or non-string
cells never match, per `na=False`). Search texts with metacharacters are
interpreted as regular expressions instead. -/
theorem filter_identity_subset_amended :
    (∀ rows, filtered_df [] rows = rows) ∧
    (∀ s rows, (filtered_df s rows).Sublist rows) ∧
    (∀ s rows, s ≠ [] → (∀ c ∈ s, isRegexMeta c = false) →
      filtered_df s rows = rows.filter (fun r =>
        seriesContainsSpec s (rowText r (pys "name")) ||
        seriesContainsSpec s (rowText r (pys "symbol")))) := by
  refine ⟨fun rows => rfl, ?_, ?_⟩
  · intro s rows
    unfold filtered_df
    split
    · exact List.Sublist.refl rows
    · exact List.filter_sublist rows
  · intro s rows hs hmeta
    have hdot : ∀ c ∈ s, c ≠ '.' := by
      intro c hc heq
      subst heq
      have := hmeta '.' hc
      exact absurd this (by decide)
    unfold filtered_df
    rw [if_neg hs]
    refine List.filter_congr ?_
    intro r _
    have hcell : ∀ cell : Option PyStr,
        seriesContains s cell = seriesContainsSpec s cell := by
      intro cell
      cases cell with
      | none => rfl
      | some t => exact str_contains_ci_lit s t hdot
    rw [hcell, hcell]

/-- Witness for `filter_identity_subset_amended`: the literal search text
`"coin"` over the Bitcoin and Ethereum rows. -/
theorem filter_identity_subset_amended_witness :
    (pys "coin" ≠ [] ∧ ∀ c ∈ pys "coin", isRegexMeta c = false) ∧
    filtered_df (pys "coin") [exRowBitcoin, exRowEthereum]
      = [exRowBitcoin, exRowEthereum].filter (fun r =>
        seriesContainsSpec (pys "coin") (rowText r (pys "name")) ||
        seriesContainsSpec (pys "coin") (rowText r (pys "symbol"))) :=
  ⟨⟨by decide, by decide⟩,
   filter_identity_subset_amended.2.2 (pys "coin") [exRowBitcoin, exRowEthereum]
     (by decide) (by decide)⟩

/-- Auxiliary for C1: assigning a key not already present appends the pair. -/
theorem dictSet_fresh (d : List (PyStr × Json)) (k : PyStr) (v : Json)
    (h : k ∉ dictKeys d) : dictSet d k v = d ++ [(k, v)] := by
  unfold dictSet
  have hcond : d.any (fun p => decide (p.1 = k)) = false := by
    rw [List.any_eq_false]
    intro p hp
    simp only [decide_eq_true_eq]
    intro hpk
    exact h (hpk ▸ List.mem_map_of_mem _ hp)
  rw [hcond]
  rfl

/-- Auxiliary for C1: the first flattening loop, which skips the `quote`
item, equals a plain assignment fold over the non-quote items. -/
theorem foldl_skip_quote (l : List (PyStr × Json)) :
    ∀ acc, l.foldl (fun row kv => if kv.1 = pys "quote" then row
        else dictSet row kv.1 kv.2) acc
      = (l.filter (fun kv => !decide (kv.1 = pys "quote"))).foldl
          (fun row kv => dictSet row kv.1 kv.2) acc := by
  induction l with
  | nil => intro acc; rfl
  | cons kv rest ih =>
    intro acc
    by_cases hq : kv.1 = pys "quote"
    · simp [List.foldl_cons, List.filter_cons, hq, ih]
    · simp [List.foldl_cons, List.filter_cons, hq, ih]

/-- Auxiliary for C1: assigning items whose keys are fresh for the
accumulator and mutually distinct appends them all in order. -/
theorem foldl_dictSet_fresh : ∀ (l acc : List (PyStr × Json)),
    (∀ kv ∈ l, kv.1 ∉ dictKeys acc) → (dictKeys l).Nodup →
    l.foldl (fun row kv => dictSet row kv.1 kv.2) acc = acc ++ l := by
  intro l
  induction l with
  | nil => intro acc _ _; simp
  | cons kv rest ih =>
    intro acc hfresh hnodup
    simp only [dictKeys, List.map_cons, List.nodup_cons] at hnodup
    rw [List.foldl_cons,
      dictSet_fresh acc kv.1 kv.2 (hfresh kv (List.mem_cons_self kv rest)),
      Prod.mk.eta]
    rw [ih (acc ++ [kv]) ?_ hnodup.2]
    · rw [List.append_assoc]
      rfl
    · intro kv' h'
      simp only [dictKeys, List.map_append, List.mem_append, List.map_cons,
        List.map_nil, List.mem_singleton, not_or]
      constructor
      · exact hfresh kv' (List.mem_cons_of_mem kv h')
      · intro hk
        exact hnodup.1 (hk ▸ List.mem_map_of_mem _ h')

/-- C1, counterexample: for a record whose top-level field `USD_price`
collides with the prefixed quote key, the flat row holds the quote value,
not the top-level value — so not every top-level field is copied unchanged. -/
theorem flatten_row_collision_cex :
    dictGet exFlattenCollide (pys "USD_price") = some (.str (pys "top-level")) ∧
    dictGet (flatten_row (pys "USD") exFlattenCollide) (pys "USD_price")
      = some (.num 2) ∧
    some (Json.num 2) ≠ some (Json.str (pys "top-level")) :=
  ⟨rfl, rfl, fun h => by injection h with h; injection h⟩

/-- C1, amended: for a record with duplicate-free keys and no top-level
field named like a prefixed quote key, the flat row is exactly the
non-quote top-level items in order, followed by the requested currency's
quote items under `<convert>_`-prefixed keys — hence the spec's BTC example
holds, and quote data of other currencies appears nowhere in the row; only
on a key collision does the prefixed quote value overwrite the top-level
field. -/
theorem flatten_row_closed_form (convert : PyStr) (c : List (PyStr × Json))
    (hnodup : (dictKeys c).Nodup)
    (hqnodup : (dictKeys (quoteObj convert c)).Nodup)
    (hdisj : ∀ kv ∈ c, ∀ qk ∈ quoteObj convert c,
      kv.1 ≠ convert ++ pys "_" ++ qk.1) :
    flatten_row convert c
      = c.filter (fun kv => !decide (kv.1 = pys "quote"))
        ++ (quoteObj convert c).map
            (fun qk => (convert ++ pys "_" ++ qk.1, qk.2)) := by
  have hFnodup : (dictKeys (c.filter
      (fun kv => !decide (kv.1 = pys "quote")))).Nodup :=
    hnodup.sublist (List.Sublist.map _ (List.filter_sublist c))
  have hbase : (c.filter (fun kv => !decide (kv.1 = pys "quote"))).foldl
      (fun row kv => dictSet row kv.1 kv.2) []
      = c.filter (fun kv => !decide (kv.1 = pys "quote")) := by
    have := foldl_dictSet_fresh (c.filter (fun kv => !decide (kv.1 = pys "quote")))
      [] (by intro kv _; simp [dictKeys]) hFnodup
    simpa using this
  show ((quoteObj convert c).foldl
      (fun row kv => dictSet row (convert ++ pys "_" ++ kv.1) kv.2)
      (c.foldl (fun row kv => if kv.1 = pys "quote" then row
        else dictSet row kv.1 kv.2) [])) = _
  rw [foldl_skip_quote, hbase]
  have hstep : (quoteObj convert c).foldl
      (fun row kv => dictSet row (convert ++ pys "_" ++ kv.1) kv.2)
      (c.filter (fun kv => !decide (kv.1 = pys "quote")))
      = ((quoteObj convert c).map
          (fun qk => (convert ++ pys "_" ++ qk.1, qk.2))).foldl
          (fun row kv => dictSet row kv.1 kv.2)
          (c.filter (fun kv => !decide (kv.1 = pys "quote"))) := by
    rw [List.foldl_map]
  rw [hstep]
  apply foldl_dictSet_fresh
  · intro kv hkv
    rcases List.mem_map.mp hkv with ⟨qk, hqk, rfl⟩
    intro hmem
    rcases List.mem_map.mp hmem with ⟨kv', hkv', hkey⟩
    exact hdisj kv' (List.mem_of_mem_filter hkv') qk hqk hkey
  · have hkeys : dictKeys ((quoteObj convert c).map
        (fun qk => (convert ++ pys "_" ++ qk.1, qk.2)))
        = (dictKeys (quoteObj convert c)).map
            (fun k => convert ++ pys "_" ++ k) := by
      simp [dictKeys, List.map_map]
    rw [hkeys]
    refine hqnodup.map ?_
    intro a b hab
    dsimp only at hab
    exact List.append_cancel_left hab

/-- Witness for `flatten_row_closed_form` at the spec's BTC example record:
the flat row is `{symbol: "BTC", USD_price: 50000}`. -/
theorem flatten_row_closed_form_witness :
    flatten_row (pys "USD") exFlattenBTC
      = exFlattenBTC.filter (fun kv => !decide (kv.1 = pys "quote"))
        ++ (quoteObj (pys "USD") exFlattenBTC).map
            (fun qk => (pys "USD" ++ pys "_" ++ qk.1, qk.2)) :=
  flatten_row_closed_form (pys "USD") exFlattenBTC (by decide) (by decide)
    (by decide)

/-- Auxiliary for C10: `Nat.digitChar` of a value below ten is a digit. -/
theorem digitChar_isDigit (m : Nat) (h : m < 10) :
    (Nat.digitChar m).isDigit = true := by
  interval_cases m <;> decide

/-- Auxiliary for C10: every character produced by `natDigitsRevAux` is a
digit. -/
theorem natDigitsRevAux_all_digits : ∀ (fuel n : Nat),
    ∀ c ∈ natDigitsRevAux fuel n, c.isDigit = true := by
  intro fuel
  induction fuel with
  | zero => intro n c hc; simp [natDigitsRevAux] at hc
  | succ fuel ih =>
    intro n c hc
    unfold natDigitsRevAux at hc
    by_cases h : n < 10
    · rw [if_pos h] at hc
      rcases List.mem_singleton.mp hc with rfl
      exact digitChar_isDigit n h
    · rw [if_neg h] at hc
      rcases List.mem_cons.mp hc with rfl | hc
      · exact digitChar_isDigit _ (Nat.mod_lt _ (by norm_num))
      · exact ih _ c hc

/-- Auxiliary for C10: every character of a number's digit list is a digit. -/
theorem natDigitsRev_all_digits (n : Nat) :
    ∀ c ∈ natDigitsRev n, c.isDigit = true :=
  fun c hc => natDigitsRevAux_all_digits (n + 1) n c hc

/-- Auxiliary for C10: the digit list of a number is never empty. -/
theorem natDigitsRev_ne_nil (n : Nat) : natDigitsRev n ≠ [] := by
  unfold natDigitsRev natDigitsRevAux
  by_cases h : n < 10
  · rw [if_pos h]; exact fun hx => List.noConfusion hx
  · rw [if_neg h]; exact fun hx => List.noConfusion hx

/-- Auxiliary for C10: thousands grouping keeps the first (lowest-order)
character in place. -/
theorem groupRevAux_head? : ∀ (fuel : Nat) (ds : List Char),
    (groupRevAux fuel ds).head? = ds.head? := by
  intro fuel
  induction fuel with
  | zero => intro ds; rfl
  | succ fuel _ =>
    intro ds
    unfold groupRevAux
    by_cases h : ds.length ≤ 3
    · rw [if_pos h]
    · rw [if_neg h]
      cases ds with
      | nil => simp at h
      | cons d rest => simp

/-- Auxiliary for C10: the plain `f"{x:,.0f}"` rendering always ends in a
digit (never in a magnitude suffix). -/
theorem fmt_0f_getLast_digit (q : ℚ) :
    ∃ c, (fmt_0f q).getLast? = some c ∧ c.isDigit = true := by
  obtain ⟨d, ds, hds⟩ : ∃ d ds,
      natDigitsRev (rndHalfEven q).natAbs = d :: ds := by
    cases hx : natDigitsRev (rndHalfEven q).natAbs with
    | nil => exact absurd hx (natDigitsRev_ne_nil _)
    | cons d ds => exact ⟨d, ds, rfl⟩
  refine ⟨d, ?_, natDigitsRev_all_digits _ d (hds ▸ List.mem_cons_self d ds)⟩
  have hlast : ((groupRev (natDigitsRev (rndHalfEven q).natAbs)).reverse).getLast?
      = some d := by
    rw [List.getLast?_reverse, groupRev, groupRevAux_head?, hds]
    rfl
  unfold fmt_0f
  by_cases hneg : rndHalfEven q < 0
  · rw [if_pos hneg]
    obtain ⟨m, ms, hms⟩ : ∃ m ms,
        (groupRev (natDigitsRev (rndHalfEven q).natAbs)).reverse = m :: ms := by
      cases hx : (groupRev (natDigitsRev (rndHalfEven q).natAbs)).reverse with
      | nil => rw [hx] at hlast; exact absurd hlast (by simp)
      | cons m ms => exact ⟨m, ms, rfl⟩
    rw [hms] at hlast ⊢
    rw [List.getLast?_cons_cons]
    exact hlast
  · rw [if_neg hneg]
    exact hlast

/-- Auxiliary for C10: a digit character is not a magnitude suffix. -/
theorem isDigit_not_suffixChar (c : Char) (h : c.isDigit = true) :
    c ∉ suffixChars := by
  intro hmem
  simp only [suffixChars, List.mem_cons, List.mem_singleton] at hmem
  rcases hmem with rfl | rfl | rfl | rfl | hmem
  · exact absurd h (by decide)
  · exact absurd h (by decide)
  · exact absurd h (by decide)
  · exact absurd h (by decide)
  · simp at hmem

/-- C10: `human_num` is total — any input that `float` rejects yields the
string `"-"` rather than an exception — and on converted values the
magnitude suffixes T, B, M, K appear as the final character exactly on the
intervals `[1e12, ∞)`, `[1e9, 1e12)`, `[1e6, 1e9)`, `[1e3, 1e6)`; below
`1e3` — in particular for every negative value — the rendering ends in a
digit and never carries a suffix. -/
theorem human_num_total_and_suffixes :
    human_num .nonNum = pys "-" ∧
    ∀ q : ℚ,
      ((human_num (.num q)).getLast? = some 'T' ↔ (10 : ℚ) ^ 12 ≤ q) ∧
      ((human_num (.num q)).getLast? = some 'B' ↔
        ((10 : ℚ) ^ 9 ≤ q ∧ q < (10 : ℚ) ^ 12)) ∧
      ((human_num (.num q)).getLast? = some 'M' ↔
        ((10 : ℚ) ^ 6 ≤ q ∧ q < (10 : ℚ) ^ 9)) ∧
      ((human_num (.num q)).getLast? = some 'K' ↔
        ((10 : ℚ) ^ 3 ≤ q ∧ q < (10 : ℚ) ^ 6)) ∧
      (q < (10 : ℚ) ^ 3 →
        ∀ c ∈ suffixChars, (human_num (.num q)).getLast? ≠ some c) := by
  refine ⟨rfl, ?_⟩
  intro q
  by_cases h12 : (10 : ℚ) ^ 12 ≤ q
  · have hval : human_num (.num q) = fmt_2f (q / 10 ^ 12) ++ ['T'] := by
      simp only [human_num]
      rw [if_pos h12]
    rw [hval, List.getLast?_concat]
    refine ⟨iff_of_true rfl h12, ?_, ?_, ?_, ?_⟩
    · exact iff_of_false (by decide) (fun hc => absurd h12 (not_le.mpr hc.2))
    · refine iff_of_false (by decide) (fun hc => ?_)
      have := lt_of_le_of_lt h12 hc.2
      norm_num at this
    · refine iff_of_false (by decide) (fun hc => ?_)
      have := lt_of_le_of_lt h12 hc.2
      norm_num at this
    · intro hq
      have := lt_of_le_of_lt h12 hq
      norm_num at this
  · by_cases h9 : (10 : ℚ) ^ 9 ≤ q
    · have hval : human_num (.num q) = fmt_2f (q / 10 ^ 9) ++ ['B'] := by
        simp only [human_num]
        rw [if_neg h12, if_pos h9]
      rw [hval, List.getLast?_concat]
      refine ⟨iff_of_false (by decide) h12,
        iff_of_true rfl ⟨h9, not_le.mp h12⟩, ?_, ?_, ?_⟩
      · exact iff_of_false (by decide) (fun hc => absurd h9 (not_le.mpr hc.2))
      · refine iff_of_false (by decide) (fun hc => ?_)
        have := lt_of_le_of_lt h9 hc.2
        norm_num at this
      · intro hq
        have := lt_of_le_of_lt h9 hq
        norm_num at this
    · by_cases h6 : (10 : ℚ) ^ 6 ≤ q
      · have hval : human_num (.num q) = fmt_2f (q / 10 ^ 6) ++ ['M'] := by
          simp only [human_num]
          rw [if_neg h12, if_neg h9, if_pos h6]
        rw [hval, List.getLast?_concat]
        refine ⟨iff_of_false (by decide) h12, ?_,
          iff_of_true rfl ⟨h6, not_le.mp h9⟩, ?_, ?_⟩
        · exact iff_of_false (by decide) (fun hc => absurd hc.1 h9)
        · exact iff_of_false (by decide) (fun hc => absurd h6 (not_le.mpr hc.2))
        · intro hq
          have := lt_of_le_of_lt h6 hq
          norm_num at this
      · by_cases h3 : (10 : ℚ) ^ 3 ≤ q
        · have hval : human_num (.num q) = fmt_2f (q / 10 ^ 3) ++ ['K'] := by
            simp only [human_num]
            rw [if_neg h12, if_neg h9, if_neg h6, if_pos h3]
          rw [hval, List.getLast?_concat]
          refine ⟨iff_of_false (by decide) h12, ?_, ?_,
            iff_of_true rfl ⟨h3, not_le.mp h6⟩, ?_⟩
          · exact iff_of_false (by decide) (fun hc => absurd hc.1 h9)
          · exact iff_of_false (by decide) (fun hc => absurd hc.1 h6)
          · intro hq
            exact absurd h3 (not_le.mpr hq)
        · have hval : human_num (.num q) = fmt_0f q := by
            simp only [human_num]
            rw [if_neg h12, if_neg h9, if_neg h6, if_neg h3]
          obtain ⟨c, hc, hcd⟩ := fmt_0f_getLast_digit q
          rw [hval, hc]
          have hlet : ∀ s : Char, s ∈ suffixChars → ¬ some c = some s := by
            intro s hs heq
            injection heq with he
            subst he
            exact isDigit_not_suffixChar c hcd hs
          refine ⟨iff_of_false (hlet 'T' (by decide)) h12,
            iff_of_false (hlet 'B' (by decide)) (fun hx => absurd hx.1 h9),
            iff_of_false (hlet 'M' (by decide)) (fun hx => absurd hx.1 h6),
            iff_of_false (hlet 'K' (by decide)) (fun hx => absurd hx.1 h3),
            fun _ s hs => hlet s hs⟩

/-- Witness for `human_num_total_and_suffixes` at the negative input `-5`:
the rendering of a negative value never ends in a magnitude suffix. -/
theorem human_num_total_and_suffixes_witness :
    ((-5 : ℚ) < (10 : ℚ) ^ 3) ∧
    ∀ c ∈ suffixChars, (human_num (.num (-5))).getLast? ≠ some c :=
  ⟨by norm_num,
   (human_num_total_and_suffixes.2 (-5)).2.2.2.2 (by norm_num)⟩
